import Mathlib

/-!
Verification of the matchup-comparison and aggregation logic of
`yahoo_fantasy.py` (a weekly fantasy-basketball reporting script).

Stat values parsed from the API are Python floats; the comparisons performed
on them are pure order comparisons, so they are modelled as rationals (`ℚ`).
A team's row of the matchup dataframe carries one value per stat category;
`create_matchup_comparison` splits the categories into the non-turnover
categories (`statCats[:-1]`) and the turnover category (`statCats[-1]`), so a
row is modelled as the list of non-turnover values together with the turnover
value.
-/

set_option autoImplicit false

namespace YahooFantasy

/-- One team row of the matchup dataframe, as consumed by
`create_matchup_comparison`: the non-turnover category values
(`statCats[:-1]`, in category order) and the turnover value
(`statCats[-1]`). -/
structure TeamRow where
  nonTOs : List ℚ
  TOs : ℚ
  deriving DecidableEq

/-- The three running counters of the inner comparison loop of
`create_matchup_comparison`: `curScore`, `vsScore`, `tieScore`. -/
structure Tally where
  curScore : ℕ
  vsScore : ℕ
  tieScore : ℕ
  deriving DecidableEq

/-- One iteration of the `for cat in nonTOs` loop:
`if curTeam[cat]>vsTeam[cat]: curScore += 1
elif curTeam[cat]<vsTeam[cat]: vsScore += 1
else: tieScore += 1`. -/
def stepNonTO (s : Tally) (c v : ℚ) : Tally :=
  if c > v then { s with curScore := s.curScore + 1 }
  else if c < v then { s with vsScore := s.vsScore + 1 }
  else { s with tieScore := s.tieScore + 1 }

/-- The turnover comparison after the loop:
`if curTeam[TOs]<vsTeam[TOs]: curScore += 1
elif curTeam[TOs]>vsTeam[TOs]: vsScore += 1
else: tieScore += 1`. -/
def stepTO (s : Tally) (c v : ℚ) : Tally :=
  if c < v then { s with curScore := s.curScore + 1 }
  else if c > v then { s with vsScore := s.vsScore + 1 }
  else { s with tieScore := s.tieScore + 1 }

/-- The tally accumulated by the `for cat in nonTOs` loop, starting from
`curScore = vsScore = tieScore = 0`.  Both rows come from the same dataframe,
so the two category lists are walked in parallel. -/
def nonTOTally (cur vs : List ℚ) : Tally :=
  (cur.zip vs).foldl (fun s p => stepNonTO s p.1 p.2) ⟨0, 0, 0⟩

/-- The full category tally of row `curTeam` against row `vsTeam`: the
non-turnover loop followed by the inverted turnover comparison. -/
def matchupTally (curTeam vsTeam : TeamRow) : Tally :=
  stepTO (nonTOTally curTeam.nonTOs vsTeam.nonTOs) curTeam.TOs vsTeam.TOs

/-- The matchup score string written into `matchupScore[i,j]`:
`f'{curScore}-{vsScore}-{tieScore}'` when `tieScore > 0`, else
`f'{curScore}-{vsScore}'`. -/
def formatScore (t : Tally) : String :=
  if t.tieScore > 0 then
    toString t.curScore ++ "-" ++ toString t.vsScore ++ "-" ++ toString t.tieScore
  else
    toString t.curScore ++ "-" ++ toString t.vsScore

/-- The in-loop value of `matchupScore[i,j]` for rows `cur` and `vs`. -/
def matchupScoreEntry (cur vs : TeamRow) : String :=
  formatScore (matchupTally cur vs)

/-- The in-loop value of `matchupWinner[i,j]` for rows `cur` and `vs`:
`1` if `curScore > vsScore`, `0` if `vsScore > curScore`, `.5` otherwise. -/
def matchupWinnerEntry (cur vs : TeamRow) : ℚ :=
  let t := matchupTally cur vs
  if t.curScore > t.vsScore then 1
  else if t.vsScore > t.curScore then 0
  else 1/2

/-- The `matchupWinner` matrix as filled in by the double loop, before the
diagonal is overwritten. -/
def matchupWinnerLoop (rows : List TeamRow) (i j : Fin rows.length) : ℚ :=
  matchupWinnerEntry (rows.get i) (rows.get j)

/-- The final `matchupScore` matrix: the loop fills every entry and then
`matchupScore[idxs] = 'N/A'` overwrites the diagonal. -/
def matchupScoreMatrix (rows : List TeamRow) (i j : Fin rows.length) : String :=
  if i = j then "N/A" else matchupScoreEntry (rows.get i) (rows.get j)

/-- The `matchupWinner` matrix after `matchupWinner[idxs] = 0` zeroes the
diagonal (the state from which the summary columns are computed). -/
def matchupWinnerZeroDiag (rows : List TeamRow) (i j : Fin rows.length) : ℚ :=
  if i = j then 0 else matchupWinnerLoop rows i j

/-- `df['totalWins']`: zero all entries of the (diagonal-zeroed) winner matrix
that are not `1`, then sum each row. -/
def totalWins (rows : List TeamRow) (i : Fin rows.length) : ℚ :=
  ((List.finRange rows.length).map
    (fun j => if matchupWinnerZeroDiag rows i j = 1 then matchupWinnerZeroDiag rows i j else 0)).sum

/-- `df['totalLosses']`: set all nonzero entries to `1`, sum `1 - copy` over
each row, and subtract `1` because a team cannot play itself. -/
def totalLosses (rows : List TeamRow) (i : Fin rows.length) : ℚ :=
  ((List.finRange rows.length).map
    (fun j => 1 - (if matchupWinnerZeroDiag rows i j = 0 then matchupWinnerZeroDiag rows i j else 1))).sum - 1

/-- `df['totalTies']`: zero all entries that are not `.5`, set the `.5`
entries to `1`, then sum each row. -/
def totalTies (rows : List TeamRow) (i : Fin rows.length) : ℚ :=
  ((List.finRange rows.length).map
    (fun j => if matchupWinnerZeroDiag rows i j = 1/2 then 1 else 0)).sum

/-- Sum of the three counters of a tally. -/
def Tally.total (t : Tally) : ℕ := t.curScore + t.vsScore + t.tieScore

/-- Swap of the `curScore` and `vsScore` counters. -/
def Tally.swap (t : Tally) : Tally := ⟨t.vsScore, t.curScore, t.tieScore⟩

lemma stepNonTO_total (s : Tally) (c v : ℚ) : (stepNonTO s c v).total = s.total + 1 := by
  unfold stepNonTO Tally.total
  rcases lt_trichotomy c v with h | h | h <;>
    simp [h, not_lt.mpr h.le, h.not_lt] <;> omega

lemma stepTO_total (s : Tally) (c v : ℚ) : (stepTO s c v).total = s.total + 1 := by
  unfold stepTO Tally.total
  rcases lt_trichotomy c v with h | h | h <;>
    simp [h, not_lt.mpr h.le, h.not_lt] <;> omega

lemma foldl_stepNonTO_total (l : List (ℚ × ℚ)) (s : Tally) :
    (l.foldl (fun s p => stepNonTO s p.1 p.2) s).total = s.total + l.length := by
  induction l generalizing s with
  | nil => simp
  | cons p l ih => simp [List.foldl_cons, ih, stepNonTO_total]; omega

lemma nonTOTally_total (cur vs : List ℚ) :
    (nonTOTally cur vs).total = (cur.zip vs).length := by
  unfold nonTOTally
  rw [foldl_stepNonTO_total]
  simp [Tally.total]

lemma matchupTally_total (cur vs : TeamRow)
    (h : cur.nonTOs.length = vs.nonTOs.length) :
    (matchupTally cur vs).total = cur.nonTOs.length + 1 := by
  unfold matchupTally
  rw [stepTO_total, nonTOTally_total, List.length_zip, h, min_self]

/-- C1: for every pair of team rows (drawn from the same dataframe, hence with
the same categories), the comparison loop of `create_matchup_comparison`
produces counts with `curScore + vsScore + tieScore` equal to the number of
stat categories (the non-turnover categories plus the turnover category):
each category contributes exactly one point to exactly one counter. -/
theorem matchup_tally_sums_to_category_count (cur vs : TeamRow)
    (h : cur.nonTOs.length = vs.nonTOs.length) :
    (matchupTally cur vs).curScore + (matchupTally cur vs).vsScore +
      (matchupTally cur vs).tieScore = cur.nonTOs.length + 1 := by
  have := matchupTally_total cur vs h
  unfold Tally.total at this
  exact this

/-- Witness for C1 at a concrete pair of rows with three non-turnover
categories each. -/
theorem matchup_tally_sums_to_category_count_witness :
    (TeamRow.mk [1, 5, 3] 10).nonTOs.length = (TeamRow.mk [2, 5, 1] 7).nonTOs.length ∧
    (matchupTally (TeamRow.mk [1, 5, 3] 10) (TeamRow.mk [2, 5, 1] 7)).curScore +
      (matchupTally (TeamRow.mk [1, 5, 3] 10) (TeamRow.mk [2, 5, 1] 7)).vsScore +
      (matchupTally (TeamRow.mk [1, 5, 3] 10) (TeamRow.mk [2, 5, 1] 7)).tieScore =
      (TeamRow.mk [1, 5, 3] 10).nonTOs.length + 1 :=
  ⟨by decide,
   matchup_tally_sums_to_category_count (TeamRow.mk [1, 5, 3] 10) (TeamRow.mk [2, 5, 1] 7)
     (by decide)⟩

/-- C2: every in-loop entry of the `matchupWinner` matrix is `1` exactly when
row `i`'s category-point count exceeds row `j`'s, `0` exactly when it is
smaller, and `.5` exactly when the two counts are equal. -/
theorem matchup_winner_matrix_encodes_comparison (rows : List TeamRow)
    (i j : Fin rows.length) :
    (matchupWinnerLoop rows i j = 1 ↔
      (matchupTally (rows.get i) (rows.get j)).vsScore <
        (matchupTally (rows.get i) (rows.get j)).curScore) ∧
    (matchupWinnerLoop rows i j = 0 ↔
      (matchupTally (rows.get i) (rows.get j)).curScore <
        (matchupTally (rows.get i) (rows.get j)).vsScore) ∧
    (matchupWinnerLoop rows i j = 1/2 ↔
      (matchupTally (rows.get i) (rows.get j)).curScore =
        (matchupTally (rows.get i) (rows.get j)).vsScore) := by
  unfold matchupWinnerLoop matchupWinnerEntry
  set t := matchupTally (rows.get i) (rows.get j) with ht
  rcases lt_trichotomy t.curScore t.vsScore with h | h | h
  · simp [h, h.not_lt, h.ne, not_lt.mpr h.le]
  · simp [h, lt_irrefl]
  · simp [h, h.not_lt, h.ne.symm, not_lt.mpr h.le]

/-- C8: the turnover category is scored with the comparison inverted: relative
to the tally of the non-turnover loop, the `curScore` counter gains the
turnover point exactly when `curTeam` has the strictly smaller turnover value,
`vsScore` gains it exactly when `vsTeam` has the strictly smaller value, and
equality adds the point to `tieScore`. -/
theorem turnover_category_comparison_inverted (cur vs : TeamRow) :
    (matchupTally cur vs).curScore =
      (nonTOTally cur.nonTOs vs.nonTOs).curScore + (if cur.TOs < vs.TOs then 1 else 0) ∧
    (matchupTally cur vs).vsScore =
      (nonTOTally cur.nonTOs vs.nonTOs).vsScore + (if vs.TOs < cur.TOs then 1 else 0) ∧
    (matchupTally cur vs).tieScore =
      (nonTOTally cur.nonTOs vs.nonTOs).tieScore + (if cur.TOs = vs.TOs then 1 else 0) := by
  unfold matchupTally stepTO
  rcases lt_trichotomy cur.TOs vs.TOs with h | h | h
  · simp [h, h.ne, h.not_lt]
  · simp [h, lt_irrefl]
  · simp [h, h.ne.symm, h.not_lt, not_lt.mpr h.le]

/-- A concrete two-row dataframe used to instantiate the matchup theorems. -/
def exRows : List TeamRow := [⟨[1, 5, 3], 10⟩, ⟨[2, 5, 1], 7⟩]

/-- C3: off the diagonal, the matchup score string is
`'{curScore}-{vsScore}-{tieScore}'` when the tie count is positive and
`'{curScore}-{vsScore}'` when it is zero; the diagonal is `'N/A'`. -/
theorem matchup_score_string_format (rows : List TeamRow) (i j : Fin rows.length)
    (hij : i ≠ j) :
    (0 < (matchupTally (rows.get i) (rows.get j)).tieScore →
      matchupScoreMatrix rows i j =
        toString (matchupTally (rows.get i) (rows.get j)).curScore ++ "-" ++
        toString (matchupTally (rows.get i) (rows.get j)).vsScore ++ "-" ++
        toString (matchupTally (rows.get i) (rows.get j)).tieScore) ∧
    ((matchupTally (rows.get i) (rows.get j)).tieScore = 0 →
      matchupScoreMatrix rows i j =
        toString (matchupTally (rows.get i) (rows.get j)).curScore ++ "-" ++
        toString (matchupTally (rows.get i) (rows.get j)).vsScore) ∧
    matchupScoreMatrix rows i i = "N/A" := by
  refine ⟨fun h => ?_, fun h => ?_, by simp [matchupScoreMatrix]⟩
  · unfold matchupScoreMatrix matchupScoreEntry formatScore
    rw [if_neg hij, if_pos h]
  · unfold matchupScoreMatrix matchupScoreEntry formatScore
    rw [if_neg hij,
      if_neg (by omega : ¬ 0 < (matchupTally (rows.get i) (rows.get j)).tieScore)]

/-- Witness for C3 at the two concrete rows of `exRows`. -/
theorem matchup_score_string_format_witness :
    (⟨0, by decide⟩ : Fin exRows.length) ≠ ⟨1, by decide⟩ ∧
    ((0 < (matchupTally (exRows.get ⟨0, by decide⟩) (exRows.get ⟨1, by decide⟩)).tieScore →
      matchupScoreMatrix exRows ⟨0, by decide⟩ ⟨1, by decide⟩ =
        toString (matchupTally (exRows.get ⟨0, by decide⟩) (exRows.get ⟨1, by decide⟩)).curScore ++ "-" ++
        toString (matchupTally (exRows.get ⟨0, by decide⟩) (exRows.get ⟨1, by decide⟩)).vsScore ++ "-" ++
        toString (matchupTally (exRows.get ⟨0, by decide⟩) (exRows.get ⟨1, by decide⟩)).tieScore) ∧
    ((matchupTally (exRows.get ⟨0, by decide⟩) (exRows.get ⟨1, by decide⟩)).tieScore = 0 →
      matchupScoreMatrix exRows ⟨0, by decide⟩ ⟨1, by decide⟩ =
        toString (matchupTally (exRows.get ⟨0, by decide⟩) (exRows.get ⟨1, by decide⟩)).curScore ++ "-" ++
        toString (matchupTally (exRows.get ⟨0, by decide⟩) (exRows.get ⟨1, by decide⟩)).vsScore) ∧
    matchupScoreMatrix exRows ⟨0, by decide⟩ ⟨0, by decide⟩ = "N/A") :=
  ⟨by decide,
   matchup_score_string_format exRows ⟨0, by decide⟩ ⟨1, by decide⟩ (by decide)⟩

lemma stepNonTO_swap (s : Tally) (c v : ℚ) :
    stepNonTO s.swap v c = (stepNonTO s c v).swap := by
  unfold stepNonTO Tally.swap
  rcases lt_trichotomy c v with h | h | h
  · simp [h, h.ne, h.not_lt]
  · simp [h, lt_irrefl]
  · simp [h, h.ne.symm, h.not_lt]

lemma stepTO_swap (s : Tally) (c v : ℚ) :
    stepTO s.swap v c = (stepTO s c v).swap := by
  unfold stepTO Tally.swap
  rcases lt_trichotomy c v with h | h | h
  · simp [h, h.ne, h.not_lt]
  · simp [h, lt_irrefl]
  · simp [h, h.ne.symm, h.not_lt]

lemma foldl_stepNonTO_swap (l : List (ℚ × ℚ)) (s : Tally) :
    (l.map Prod.swap).foldl (fun s p => stepNonTO s p.1 p.2) s.swap =
      (l.foldl (fun s p => stepNonTO s p.1 p.2) s).swap := by
  induction l generalizing s with
  | nil => simp
  | cons p l ih => simpa [stepNonTO_swap] using ih (stepNonTO s p.1 p.2)

lemma nonTOTally_swap (cur vs : List ℚ) :
    nonTOTally vs cur = (nonTOTally cur vs).swap := by
  unfold nonTOTally
  rw [← List.zip_swap cur vs]
  exact foldl_stepNonTO_swap (cur.zip vs) ⟨0, 0, 0⟩

lemma matchupTally_swap (cur vs : TeamRow) :
    matchupTally vs cur = (matchupTally cur vs).swap := by
  unfold matchupTally
  rw [nonTOTally_swap, stepTO_swap]

/-- C10: before the diagonal is overwritten, the comparison matrices are
anti-symmetric: for distinct rows, the two winner entries sum to `1`, and the
reversed score string is the score string of the swapped tally (same tie
count, win and loss counts exchanged). -/
theorem matchup_matrices_antisymmetric (rows : List TeamRow) (i j : Fin rows.length)
    (_hij : i ≠ j) :
    matchupWinnerLoop rows i j + matchupWinnerLoop rows j i = 1 ∧
    matchupScoreEntry (rows.get j) (rows.get i) =
      formatScore (Tally.swap (matchupTally (rows.get i) (rows.get j))) := by
  constructor
  · unfold matchupWinnerLoop matchupWinnerEntry
    rw [matchupTally_swap (rows.get i) (rows.get j)]
    set t := matchupTally (rows.get i) (rows.get j) with ht
    rcases lt_trichotomy t.curScore t.vsScore with h | h | h
    · simp [Tally.swap, h, h.not_lt]
    · simp [Tally.swap, h, lt_irrefl]
      norm_num
    · simp [Tally.swap, h, h.not_lt]
  · unfold matchupScoreEntry
    rw [matchupTally_swap (rows.get i) (rows.get j)]

/-- Witness for C10 at the two concrete rows of `exRows`. -/
theorem matchup_matrices_antisymmetric_witness :
    (⟨0, by decide⟩ : Fin exRows.length) ≠ ⟨1, by decide⟩ ∧
    (matchupWinnerLoop exRows ⟨0, by decide⟩ ⟨1, by decide⟩ +
      matchupWinnerLoop exRows ⟨1, by decide⟩ ⟨0, by decide⟩ = 1 ∧
    matchupScoreEntry (exRows.get ⟨1, by decide⟩) (exRows.get ⟨0, by decide⟩) =
      formatScore (Tally.swap
        (matchupTally (exRows.get ⟨0, by decide⟩) (exRows.get ⟨1, by decide⟩)))) :=
  ⟨by decide,
   matchup_matrices_antisymmetric exRows ⟨0, by decide⟩ ⟨1, by decide⟩ (by decide)⟩

lemma matchupWinnerEntry_cases (cur vs : TeamRow) :
    matchupWinnerEntry cur vs = 1 ∨ matchupWinnerEntry cur vs = 0 ∨
      matchupWinnerEntry cur vs = 1/2 := by
  unfold matchupWinnerEntry
  rcases lt_trichotomy (matchupTally cur vs).curScore (matchupTally cur vs).vsScore with
    h | h | h
  · simp [h, h.not_lt]
  · simp [h, lt_irrefl]
  · simp [h, h.not_lt]

lemma matchupWinnerZeroDiag_cases (rows : List TeamRow) (i j : Fin rows.length) :
    matchupWinnerZeroDiag rows i j = 1 ∨ matchupWinnerZeroDiag rows i j = 0 ∨
      matchupWinnerZeroDiag rows i j = 1/2 := by
  unfold matchupWinnerZeroDiag matchupWinnerLoop
  by_cases h : i = j
  · simp [h]
  · simpa [h] using matchupWinnerEntry_cases (rows.get i) (rows.get j)

lemma winner_pointwise_one (rows : List TeamRow) (i j : Fin rows.length) :
    (if matchupWinnerZeroDiag rows i j = 1 then matchupWinnerZeroDiag rows i j else 0) +
      (1 - (if matchupWinnerZeroDiag rows i j = 0 then matchupWinnerZeroDiag rows i j else 1)) +
      (if matchupWinnerZeroDiag rows i j = 1/2 then (1 : ℚ) else 0) = 1 := by
  rcases matchupWinnerZeroDiag_cases rows i j with h | h | h <;> rw [h] <;> norm_num

lemma sum_map_add_rat {α : Type} (l : List α) (f g : α → ℚ) :
    (l.map fun x => f x + g x).sum = (l.map f).sum + (l.map g).sum := by
  induction l with
  | nil => simp
  | cons a l ih => simp [ih]; ring

/-- C9: for every team row, `totalWins + totalLosses + totalTies = n - 1`
where `n` is the number of team rows: each team is compared against every
other team exactly once and never against itself. -/
theorem total_columns_sum_to_team_count_minus_one (rows : List TeamRow)
    (i : Fin rows.length) :
    totalWins rows i + totalLosses rows i + totalTies rows i =
      (rows.length : ℚ) - 1 := by
  unfold totalWins totalLosses totalTies
  have hsum :
      ((List.finRange rows.length).map (fun j =>
        (if matchupWinnerZeroDiag rows i j = 1 then matchupWinnerZeroDiag rows i j else 0) +
        (1 - (if matchupWinnerZeroDiag rows i j = 0 then matchupWinnerZeroDiag rows i j else 1)) +
        (if matchupWinnerZeroDiag rows i j = 1/2 then (1 : ℚ) else 0))).sum =
      (rows.length : ℚ) := by
    have hone : ((List.finRange rows.length).map (fun j =>
        (if matchupWinnerZeroDiag rows i j = 1 then matchupWinnerZeroDiag rows i j else 0) +
        (1 - (if matchupWinnerZeroDiag rows i j = 0 then matchupWinnerZeroDiag rows i j else 1)) +
        (if matchupWinnerZeroDiag rows i j = 1/2 then (1 : ℚ) else 0))) =
        (List.finRange rows.length).map (fun _ => (1 : ℚ)) :=
      List.map_congr_left (fun j _ => winner_pointwise_one rows i j)
    rw [hone, List.map_const', List.sum_replicate, List.length_finRange, nsmul_eq_mul,
      mul_one]
  rw [sum_map_add_rat, sum_map_add_rat] at hsum
  linarith [hsum]

/-! ### `max_min_stats` -/

/-- Pandas `Series.max()` over a stat column: the running maximum of the
column's values (`none` on an empty column). -/
def pdMax : List ℚ → Option ℚ
  | [] => none
  | x :: xs => some (xs.foldl max x)

/-- Pandas `Series.min()` over a stat column. -/
def pdMin : List ℚ → Option ℚ
  | [] => none
  | x :: xs => some (xs.foldl min x)

/-- `', '.join(df.loc[df[stat]==val, 'manager'].to_list())`: the managers of
the rows whose value in the column equals `v`, in row order, joined by
a comma and a space. -/
def managersAttaining (col : List ℚ) (managers : List String) (v : ℚ) : String :=
  String.intercalate ", "
    (((col.zip managers).filter (fun pr => decide (pr.1 = v))).map Prod.snd)

/-- Specification-side selection: the manager of every row index whose column
entry attains `v`. -/
def attainingManagersSpec (col : List ℚ) (managers : List String) (v : ℚ) : List String :=
  (List.range col.length).filterMap (fun i =>
    (col[i]?).bind (fun c => (managers[i]?).bind (fun m =>
      if c = v then some m else none)))

lemma foldl_max_init_le (xs : List ℚ) (a : ℚ) : a ≤ xs.foldl max a := by
  induction xs generalizing a with
  | nil => exact le_refl a
  | cons x xs ih => exact le_trans (le_max_left a x) (ih (max a x))

lemma foldl_max_le_of_mem (x : ℚ) : ∀ (xs : List ℚ) (a : ℚ), x ∈ xs → x ≤ xs.foldl max a
  | [], _, hx => absurd hx (List.not_mem_nil x)
  | y :: ys, a, hx => by
      rcases List.mem_cons.mp hx with rfl | hmem
      · exact le_trans (le_max_right a x) (foldl_max_init_le ys (max a x))
      · exact foldl_max_le_of_mem x ys (max a y) hmem

lemma foldl_max_mem : ∀ (xs : List ℚ) (a : ℚ), xs.foldl max a ∈ a :: xs
  | [], a => by simp
  | y :: ys, a => by
      rw [List.foldl_cons]
      rcases List.mem_cons.mp (foldl_max_mem ys (max a y)) with heq | hmem
      · rcases max_choice a y with h1 | h1 <;> rw [heq, h1] <;> simp
      · exact List.mem_cons.mpr (Or.inr (List.mem_cons.mpr (Or.inr hmem)))

lemma foldl_min_le_init (xs : List ℚ) (a : ℚ) : xs.foldl min a ≤ a := by
  induction xs generalizing a with
  | nil => exact le_refl a
  | cons x xs ih => exact le_trans (ih (min a x)) (min_le_left a x)

lemma foldl_min_le_of_mem (x : ℚ) : ∀ (xs : List ℚ) (a : ℚ), x ∈ xs → xs.foldl min a ≤ x
  | [], _, hx => absurd hx (List.not_mem_nil x)
  | y :: ys, a, hx => by
      rcases List.mem_cons.mp hx with rfl | hmem
      · exact le_trans (foldl_min_le_init ys (min a x)) (min_le_right a x)
      · exact foldl_min_le_of_mem x ys (min a y) hmem

lemma foldl_min_mem : ∀ (xs : List ℚ) (a : ℚ), xs.foldl min a ∈ a :: xs
  | [], a => by simp
  | y :: ys, a => by
      rw [List.foldl_cons]
      rcases List.mem_cons.mp (foldl_min_mem ys (min a y)) with heq | hmem
      · rcases min_choice a y with h1 | h1 <;> rw [heq, h1] <;> simp
      · exact List.mem_cons.mpr (Or.inr (List.mem_cons.mpr (Or.inr hmem)))

lemma pdMax_spec (col : List ℚ) (h : col ≠ []) :
    ∃ v, pdMax col = some v ∧ v ∈ col ∧ ∀ x ∈ col, x ≤ v := by
  cases col with
  | nil => exact absurd rfl h
  | cons c cs =>
    refine ⟨cs.foldl max c, rfl, foldl_max_mem cs c, fun x hx => ?_⟩
    rcases List.mem_cons.mp hx with rfl | hmem
    · exact foldl_max_init_le cs x
    · exact foldl_max_le_of_mem x cs c hmem

lemma pdMin_spec (col : List ℚ) (h : col ≠ []) :
    ∃ v, pdMin col = some v ∧ v ∈ col ∧ ∀ x ∈ col, v ≤ x := by
  cases col with
  | nil => exact absurd rfl h
  | cons c cs =>
    refine ⟨cs.foldl min c, rfl, foldl_min_mem cs c, fun x hx => ?_⟩
    rcases List.mem_cons.mp hx with rfl | hmem
    · exact foldl_min_le_init cs x
    · exact foldl_min_le_of_mem x cs c hmem

lemma attainingManagersSpec_cons (c : ℚ) (cs : List ℚ) (m : String) (ms : List String)
    (v : ℚ) :
    attainingManagersSpec (c :: cs) (m :: ms) v =
      (if c = v then [m] else []) ++ attainingManagersSpec cs ms v := by
  unfold attainingManagersSpec
  rw [List.length_cons, List.range_succ_eq_map, List.filterMap_cons, List.filterMap_map]
  have htail :
      List.filterMap
        ((fun i => ((c :: cs)[i]?).bind (fun x => ((m :: ms)[i]?).bind (fun y =>
          if x = v then some y else none))) ∘ Nat.succ)
        (List.range cs.length) =
      List.filterMap
        (fun i => (cs[i]?).bind (fun x => (ms[i]?).bind (fun y =>
          if x = v then some y else none)))
        (List.range cs.length) :=
    List.filterMap_congr (fun i _ => by
      simp [Function.comp, List.getElem?_cons_succ])
  rw [htail]
  by_cases h : c = v <;> simp [h]

lemma filter_zip_map_snd (v : ℚ) : ∀ (col : List ℚ) (managers : List String),
    col.length = managers.length →
    ((col.zip managers).filter (fun pr => decide (pr.1 = v))).map Prod.snd =
      attainingManagersSpec col managers v
  | [], _, _ => by simp [attainingManagersSpec]
  | c :: cs, [], h => by simp at h
  | c :: cs, m :: ms, h => by
      rw [attainingManagersSpec_cons]
      have hlen : cs.length = ms.length := by simpa using h
      by_cases hc : c = v <;>
        simp [List.filter_cons, hc, filter_zip_map_snd v cs ms hlen]

/-- C4: for every stat column of a nonempty matchup dataframe, `max_min_stats`
reports as maximum (minimum) the true maximum (minimum) of the column, and
the `Manager(s)` field is exactly the managers of the rows attaining that
value, in row order, joined by `', '`. -/
theorem max_min_stats_category_extremes (col : List ℚ) (managers : List String)
    (hne : col ≠ []) (hlen : col.length = managers.length) :
    (∃ v, pdMax col = some v ∧ v ∈ col ∧ (∀ x ∈ col, x ≤ v) ∧
      managersAttaining col managers v =
        String.intercalate ", " (attainingManagersSpec col managers v)) ∧
    (∃ v, pdMin col = some v ∧ v ∈ col ∧ (∀ x ∈ col, v ≤ x) ∧
      managersAttaining col managers v =
        String.intercalate ", " (attainingManagersSpec col managers v)) := by
  constructor
  · obtain ⟨v, h1, h2, h3⟩ := pdMax_spec col hne
    refine ⟨v, h1, h2, h3, ?_⟩
    unfold managersAttaining
    rw [filter_zip_map_snd v col managers hlen]
  · obtain ⟨v, h1, h2, h3⟩ := pdMin_spec col hne
    refine ⟨v, h1, h2, h3, ?_⟩
    unfold managersAttaining
    rw [filter_zip_map_snd v col managers hlen]

/-- Witness for C4 on a concrete column and manager list. -/
theorem max_min_stats_category_extremes_witness :
    ([3, 1, 3] : List ℚ) ≠ [] ∧ ([3, 1, 3] : List ℚ).length = ["a", "b", "c"].length ∧
    ((∃ v, pdMax [3, 1, 3] = some v ∧ v ∈ ([3, 1, 3] : List ℚ) ∧
        (∀ x ∈ ([3, 1, 3] : List ℚ), x ≤ v) ∧
        managersAttaining [3, 1, 3] ["a", "b", "c"] v =
          String.intercalate ", " (attainingManagersSpec [3, 1, 3] ["a", "b", "c"] v)) ∧
      (∃ v, pdMin [3, 1, 3] = some v ∧ v ∈ ([3, 1, 3] : List ℚ) ∧
        (∀ x ∈ ([3, 1, 3] : List ℚ), v ≤ x) ∧
        managersAttaining [3, 1, 3] ["a", "b", "c"] v =
          String.intercalate ", " (attainingManagersSpec [3, 1, 3] ["a", "b", "c"] v))) :=
  ⟨by decide, by decide,
   max_min_stats_category_extremes [3, 1, 3] ["a", "b", "c"] (by decide) (by decide)⟩

/-! ### `refresh_oauth_file` -/

/-- The credential-file handling of `refresh_oauth_file`, restricted to what
is observable about error behaviour.  `ext` is `os.path.splitext(oauthFile)[1]`.
Only under `if refresh:` is the extension inspected: `.json` and `.yaml` are
loaded, any other extension raises
`ValueError('Wrong file format for yahoo oauth keys. Please use json or yaml')`;
with `refresh` false the whole block is skipped. -/
def refresh_oauth_ext_check (ext : String) (refresh : Bool) : Except String Unit :=
  if refresh then
    if ext = ".json" then Except.ok ()
    else if ext = ".yaml" then Except.ok ()
    else Except.error "Wrong file format for yahoo oauth keys. Please use json or yaml"
  else Except.ok ()

/-- C7 counterexample: called with the default `refresh=False` (exactly how
the script's `__main__` calls it), an unsupported extension such as `.txt`
raises no `ValueError` — the extension check is skipped entirely. -/
theorem refresh_oauth_no_error_without_refresh :
    refresh_oauth_ext_check ".txt" false = Except.ok () := rfl

/-- C7 amended: when `refresh` is true, `refresh_oauth_file` raises
`ValueError` exactly for credential-file extensions other than `.json` and
`.yaml`, and does not raise on the extension check for those two. -/
theorem refresh_oauth_ext_check_amended :
    (∀ ext : String,
      refresh_oauth_ext_check ext true =
        Except.error "Wrong file format for yahoo oauth keys. Please use json or yaml" ↔
        (ext ≠ ".json" ∧ ext ≠ ".yaml")) ∧
    refresh_oauth_ext_check ".json" true = Except.ok () ∧
    refresh_oauth_ext_check ".yaml" true = Except.ok () := by
  refine ⟨fun ext => ?_, rfl, rfl⟩
  unfold refresh_oauth_ext_check
  by_cases h1 : ext = ".json"
  · simp [h1]
  · by_cases h2 : ext = ".yaml" <;> simp [h1, h2]

/-! ### The day-by-day walk of the main script -/

/-- Python `datetime.datetime.combine(date, time)`, with the date represented
as an absolute day number. -/
structure PyTimestamp where
  day : ℤ
  hour : ℕ
  minute : ℕ
  second : ℕ
  deriving DecidableEq

/-- `dateRanges` of the main script: with `dateDiff = endDate - startDate`,
one timestamp `combine(startDate + timedelta(days=d), time(23,59,59))` for
each `d in range(dateDiff.days + 2)`. -/
def dateRanges (startDate endDate : ℤ) : List PyTimestamp :=
  (List.range ((endDate - startDate).toNat + 2)).map
    (fun d : ℕ => ⟨startDate + (d : ℤ), 23, 59, 59⟩)

/-- C6 counterexample: for a week running from day 0 through day 6 the list
has 8 entries, not one per day of the week (7), and it contains a timestamp
for day 7 — one day past the week's end date. -/
theorem dateRanges_walks_past_week_end :
    (dateRanges 0 6).length ≠ 7 ∧ PyTimestamp.mk 7 23 59 59 ∈ dateRanges 0 6 := by
  decide

/-- C6 amended: `dateRanges` contains exactly one timestamp (at 23:59:59) per
day from the week's start date through the day after its end date —
`dateDiff.days + 2` entries — and the accumulation loop iterates once per
entry. -/
theorem dateRanges_one_timestamp_per_day (startDate endDate : ℤ)
    (h : startDate ≤ endDate) :
    (dateRanges startDate endDate).length = (endDate - startDate).toNat + 2 ∧
    ((dateRanges startDate endDate).map PyTimestamp.day).Nodup ∧
    (∀ t : PyTimestamp, t ∈ dateRanges startDate endDate ↔
      (t.hour = 23 ∧ t.minute = 59 ∧ t.second = 59 ∧
        startDate ≤ t.day ∧ t.day ≤ endDate + 1)) := by
  refine ⟨by simp only [dateRanges, List.length_map, List.length_range], ?_, ?_⟩
  · rw [dateRanges, List.map_map]
    have hcomp :
        (PyTimestamp.day ∘ fun d : ℕ => PyTimestamp.mk (startDate + (d : ℤ)) 23 59 59) =
        fun d : ℕ => startDate + (d : ℤ) := rfl
    rw [hcomp]
    exact (List.nodup_range _).map (fun a b hab => by omega)
  · rintro ⟨day, hour, minute, second⟩
    simp only [dateRanges, List.mem_map, List.mem_range, PyTimestamp.mk.injEq]
    constructor
    · rintro ⟨d, hd, h1, h2, h3, h4⟩
      refine ⟨h2.symm, h3.symm, h4.symm, ?_, ?_⟩ <;> omega
    · rintro ⟨h1, h2, h3, h4, h5⟩
      exact ⟨(day - startDate).toNat, by omega, by omega, h1.symm, h2.symm, h3.symm⟩

/-- Witness for the amended C6 on the week of days 0 through 6. -/
theorem dateRanges_one_timestamp_per_day_witness :
    (0 : ℤ) ≤ 6 ∧
    ((dateRanges 0 6).length = ((6 : ℤ) - 0).toNat + 2 ∧
      ((dateRanges 0 6).map PyTimestamp.day).Nodup ∧
      (∀ t : PyTimestamp, t ∈ dateRanges 0 6 ↔
        (t.hour = 23 ∧ t.minute = 59 ∧ t.second = 59 ∧
          (0 : ℤ) ≤ t.day ∧ t.day ≤ 6 + 1))) :=
  ⟨by decide, dateRanges_one_timestamp_per_day 0 6 (by decide)⟩

/-! ### Weekly roster/stat accumulation of the main script

The `for dIdx, currentDate in enumerate(dateRanges)` loop keeps, per team, a
`rosterTotals` dataframe.  Day `0` initialises it from that day's roster with
all stat categories zeroed and `added = dropped = False`.  On every day the
players that had a game (not filtered out as all-`'-'`) and are on that day's
roster are folded in: a player already present has the day's stats added onto
his row, a new player is appended with the day's stats and `added = True`.
Python iterates `list(set(...) & set(...))`; that set intersection is
modelled as a deduplicated filtered roster list — the per-player result does
not depend on the iteration order. -/

/-- One per-day stat entry returned by `league.player_stats`: either a
numeric value or the placeholder `'-'`. -/
inductive StatEntry where
  | dash : StatEntry
  | val : ℚ → StatEntry
  deriving DecidableEq

/-- `playerStats.replace('-', value = 0)` applied to one entry. -/
def replaceDash : StatEntry → ℚ
  | StatEntry.dash => 0
  | StatEntry.val q => q

/-- Whether a stat entry is the placeholder `'-'`. -/
def StatEntry.isDash : StatEntry → Bool
  | StatEntry.dash => true
  | StatEntry.val _ => false

/-- The row filter `~(playerStats[statCats] == ['-']*9).all(axis=1)`: a
player is kept for the day only if not all of the day's stat entries are
`'-'`. -/
def hadGame (stats : List StatEntry) : Bool :=
  !(stats.all StatEntry.isDash)

/-- One row of a team's `rosterTotals` dataframe: player id, accumulated
per-category stats, and the `added` / `dropped` flags. -/
structure RosterRow where
  player_id : ℕ
  stats : List ℚ
  added : Bool
  dropped : Bool
  deriving DecidableEq

/-- Elementwise `+=` of two stat vectors
(`.loc[..., statCats] += ....values`). -/
def addStats (a b : List ℚ) : List ℚ := List.zipWith (fun x y => x + y) a b

/-- Processing of one played roster player `p` inside the per-team loop: if
`p` is not yet in `rosterTotals`, a row with today's stats and `added=True`
is appended; otherwise today's stats are added onto `p`'s existing row. -/
def updatePlayer (totals : List RosterRow) (p : ℕ) (st : List ℚ) : List RosterRow :=
  if totals.any (fun r => r.player_id == p) then
    totals.map (fun r =>
      if r.player_id == p then { r with stats := addStats r.stats st } else r)
  else
    totals ++ [⟨p, st, true, false⟩]

/-- One day of the accumulation loop for a single team: every player of the
day's roster that had a game is folded into the totals with the day's
dash-replaced stat vector. -/
def dayStep (dayStats : ℕ → List StatEntry) (roster : List ℕ)
    (totals : List RosterRow) : List RosterRow :=
  ((roster.dedup).filter (fun p => hadGame (dayStats p))).foldl
    (fun t q => updatePlayer t q ((dayStats q).map replaceDash)) totals

/-- The `dIdx==0` initialisation: the first day's roster becomes
`rosterTotals` with all stat categories `0` and `dropped = added = False`. -/
def initTotals (roster0 : List ℕ) (nCats : ℕ) : List RosterRow :=
  roster0.map (fun p => ⟨p, List.replicate nCats 0, false, false⟩)

/-- The weekly accumulation loop: day `0` initialises `rosterTotals` from the
first day's roster, then every iterated day folds that day's played roster
players into the totals. -/
def rosterTotals (rosters : ℕ → List ℕ) (dayStats : ℕ → ℕ → List StatEntry)
    (numDays nCats : ℕ) : List RosterRow :=
  (List.range numDays).foldl (fun t d => dayStep (dayStats d) (rosters d) t)
    (initTotals (rosters 0) nCats)

/-- Specification-side weekly sum for player `p`: over the iterated days, the
all-`'-'` days are excluded and the remaining days' stat vectors (with `'-'`
counted as `0`) are summed. -/
def weeklyPlayerSum (dayStats : ℕ → ℕ → List StatEntry) (p numDays nCats : ℕ) : List ℚ :=
  ((List.range numDays).filter (fun d => hadGame (dayStats d p))).foldl
    (fun acc d => addStats acc ((dayStats d p).map replaceDash))
    (List.replicate nCats 0)

/-- The row-lookup predicate `df['player_id']==pID` used to address a
player's row of `rosterTotals`. -/
def pidEq (p : ℕ) : RosterRow → Bool := fun r => r.player_id == p

lemma find?_initTotals (nCats : ℕ) : ∀ (roster0 : List ℕ) (p : ℕ), p ∈ roster0 →
    (initTotals roster0 nCats).find? (pidEq p) =
      some ⟨p, List.replicate nCats 0, false, false⟩
  | [], p, hp => absurd hp (List.not_mem_nil p)
  | q :: qs, p, hp => by
      unfold initTotals
      simp only [List.map_cons]
      by_cases hqp : q = p
      · subst hqp
        exact List.find?_cons_of_pos _ (by simp [pidEq])
      · rw [List.find?_cons_of_neg _ (by simp [pidEq, hqp])]
        have hmem : p ∈ qs := by
          rcases List.mem_cons.mp hp with h | h
          · exact absurd h.symm hqp
          · exact h
        have ih := find?_initTotals nCats qs p hmem
        unfold initTotals at ih
        exact ih

lemma find?_map_update_ne (p q : ℕ) (st : List ℚ) (hqp : q ≠ p) :
    ∀ t : List RosterRow,
    ((t.map (fun r =>
        if r.player_id == q then { r with stats := addStats r.stats st } else r)).find?
      (pidEq p)) = t.find? (pidEq p)
  | [] => by simp
  | a :: as => by
      have ih := find?_map_update_ne p q st hqp as
      simp only [List.map_cons]
      by_cases haq : a.player_id = q
      · rw [if_pos (show (a.player_id == q) = true by simp [haq])]
        rw [List.find?_cons_of_neg _ (show ¬pidEq p { a with stats := addStats a.stats st } = true
          by simp [pidEq, haq, hqp])]
        rw [List.find?_cons_of_neg _ (show ¬pidEq p a = true by simp [pidEq, haq, hqp])]
        exact ih
      · rw [if_neg (show ¬(a.player_id == q) = true by simp [haq])]
        by_cases hap : a.player_id = p
        · rw [List.find?_cons_of_pos _ (show pidEq p a = true by simp [pidEq, hap])]
          rw [List.find?_cons_of_pos _ (show pidEq p a = true by simp [pidEq, hap])]
        · rw [List.find?_cons_of_neg _ (show ¬pidEq p a = true by simp [pidEq, hap])]
          rw [List.find?_cons_of_neg _ (show ¬pidEq p a = true by simp [pidEq, hap])]
          exact ih

lemma find?_map_update_self (p : ℕ) (st : List ℚ) :
    ∀ (t : List RosterRow) (r : RosterRow),
    t.find? (pidEq p) = some r →
    ((t.map (fun r =>
        if r.player_id == p then { r with stats := addStats r.stats st } else r)).find?
      (pidEq p)) = some { r with stats := addStats r.stats st }
  | [], _, h => by simp at h
  | a :: as, r, h => by
      by_cases hap : a.player_id = p
      · have hpred : pidEq p a = true := by simp [pidEq, hap]
        rw [List.find?_cons_of_pos _ hpred] at h
        have ha : a = r := Option.some.inj h
        subst ha
        simp only [List.map_cons]
        rw [if_pos (show (a.player_id == p) = true by simp [hap])]
        exact List.find?_cons_of_pos _ (by simp [pidEq, hap])
      · have hpred : ¬pidEq p a = true := by simp [pidEq, hap]
        rw [List.find?_cons_of_neg _ hpred] at h
        have ih := find?_map_update_self p st as r h
        simp only [List.map_cons]
        rw [if_neg (show ¬(a.player_id == p) = true by simp [hap])]
        rw [List.find?_cons_of_neg _ hpred]
        exact ih

lemma find?_updatePlayer_ne (t : List RosterRow) (p q : ℕ) (st : List ℚ) (hqp : q ≠ p) :
    (updatePlayer t q st).find? (pidEq p) = t.find? (pidEq p) := by
  unfold updatePlayer
  by_cases hq : t.any (fun r => r.player_id == q)
  · rw [if_pos hq]
    exact find?_map_update_ne p q st hqp t
  · rw [if_neg hq, List.find?_append]
    rw [List.find?_cons_of_neg _
      (show ¬pidEq p (⟨q, st, true, false⟩ : RosterRow) = true by simp [pidEq, hqp])]
    rw [List.find?_nil]
    cases t.find? (pidEq p) <;> rfl

lemma find?_updatePlayer_self (t : List RosterRow) (p : ℕ) (st : List ℚ) (r : RosterRow)
    (h : t.find? (pidEq p) = some r) :
    (updatePlayer t p st).find? (pidEq p) =
      some { r with stats := addStats r.stats st } := by
  unfold updatePlayer
  have hmem : r ∈ t := List.mem_of_find?_eq_some h
  have hpred : pidEq p r = true := List.find?_some h
  have hany : t.any (fun r => r.player_id == p) = true :=
    List.any_eq_true.mpr ⟨r, hmem, by simpa [pidEq] using hpred⟩
  rw [if_pos hany]
  exact find?_map_update_self p st t r h

lemma find?_foldl_updatePlayer_not_mem (p : ℕ) (f : ℕ → List ℚ) :
    ∀ (L : List ℕ) (totals : List RosterRow), p ∉ L →
    ((L.foldl (fun t q => updatePlayer t q (f q)) totals).find? (pidEq p)) =
      totals.find? (pidEq p)
  | [], _, _ => rfl
  | q :: qs, totals, hp => by
      rw [List.foldl_cons]
      have hqp : q ≠ p := fun h => hp (h ▸ List.mem_cons_self q qs)
      rw [find?_foldl_updatePlayer_not_mem p f qs (updatePlayer totals q (f q))
        (fun h => hp (List.mem_cons.mpr (Or.inr h)))]
      exact find?_updatePlayer_ne totals p q (f q) hqp

lemma find?_foldl_updatePlayer_mem (p : ℕ) (f : ℕ → List ℚ) :
    ∀ (L : List ℕ) (totals : List RosterRow) (r : RosterRow), L.Nodup → p ∈ L →
    totals.find? (pidEq p) = some r →
    ((L.foldl (fun t q => updatePlayer t q (f q)) totals).find? (pidEq p)) =
      some { r with stats := addStats r.stats (f p) }
  | [], _, _, _, hp, _ => absurd hp (List.not_mem_nil p)
  | q :: qs, totals, r, hnd, hp, hfind => by
      rw [List.foldl_cons]
      by_cases hqp : q = p
      · have hnotin : p ∉ qs := hqp ▸ (List.nodup_cons.mp hnd).1
        rw [hqp]
        rw [find?_foldl_updatePlayer_not_mem p f qs _ hnotin]
        exact find?_updatePlayer_self totals p (f p) r hfind
      · have hmem : p ∈ qs := by
          rcases List.mem_cons.mp hp with h | h
          · exact absurd h.symm hqp
          · exact h
        exact find?_foldl_updatePlayer_mem p f qs _ r (List.nodup_cons.mp hnd).2 hmem
          (by rw [find?_updatePlayer_ne totals p q (f q) hqp]; exact hfind)

lemma find?_dayStep (ds : ℕ → List StatEntry) (roster : List ℕ) (totals : List RosterRow)
    (p : ℕ) (r : RosterRow) (hp : p ∈ roster)
    (hfind : totals.find? (pidEq p) = some r) :
    (dayStep ds roster totals).find? (pidEq p) =
      some (if hadGame (ds p) then
              { r with stats := addStats r.stats ((ds p).map replaceDash) }
            else r) := by
  unfold dayStep
  by_cases hg : hadGame (ds p)
  · rw [if_pos hg]
    refine find?_foldl_updatePlayer_mem p (fun q => (ds q).map replaceDash) _ totals r
      ((List.nodup_dedup roster).filter _) ?_ hfind
    exact List.mem_filter.mpr ⟨List.mem_dedup.mpr hp, hg⟩
  · rw [if_neg hg]
    rw [find?_foldl_updatePlayer_not_mem p _ _ totals
      (fun hmem => hg (List.mem_filter.mp hmem).2)]
    exact hfind

lemma rosterTotals_find? (rosters : ℕ → List ℕ) (dayStats : ℕ → ℕ → List StatEntry)
    (nCats p : ℕ) :
    ∀ numDays : ℕ, p ∈ rosters 0 → (∀ d, d < numDays → p ∈ rosters d) →
    (rosterTotals rosters dayStats numDays nCats).find? (pidEq p) =
      some ⟨p, weeklyPlayerSum dayStats p numDays nCats, false, false⟩
  | 0, h0, _ => by
      unfold rosterTotals weeklyPlayerSum
      simpa using find?_initTotals nCats (rosters 0) p h0
  | (k + 1), h0, hall => by
      unfold rosterTotals
      rw [List.range_succ, List.foldl_append, List.foldl_cons, List.foldl_nil]
      have ih := rosterTotals_find? rosters dayStats nCats p k h0
        (fun d hd => hall d (Nat.lt_succ_of_lt hd))
      unfold rosterTotals at ih
      rw [find?_dayStep (dayStats k) (rosters k) _ p _ (hall k (Nat.lt_succ_self k)) ih]
      congr 1
      unfold weeklyPlayerSum
      rw [List.range_succ, List.filter_append]
      by_cases hg : hadGame (dayStats k p)
      · simp [hg, List.filter_cons, List.foldl_append]
      · simp [hg, List.filter_cons]

/-- C5: for every team and every player `p` who is on that team's roster on
every iterated day, `p`'s per-category totals in the team's `rosterTotals`
dataframe at the end of the weekly loop equal the sum, over the iterated
days, of `p`'s per-day stats, with `'-'` entries counted as `0` and all-`'-'`
days excluded (and `p`'s row keeps `added = dropped = False`). -/
theorem weekly_totals_equal_sum_of_daily_stats (rosters : ℕ → List ℕ)
    (dayStats : ℕ → ℕ → List StatEntry) (numDays nCats p : ℕ)
    (hpos : 0 < numDays) (hroster : ∀ d, d < numDays → p ∈ rosters d) :
    (rosterTotals rosters dayStats numDays nCats).find? (pidEq p) =
      some ⟨p, weeklyPlayerSum dayStats p numDays nCats, false, false⟩ :=
  rosterTotals_find? rosters dayStats nCats p numDays (hroster 0 hpos) hroster

/-- A concrete two-player roster assignment, constant over the week. -/
def exRosters : ℕ → List ℕ := fun _ => [1, 2]

/-- Concrete per-day stats: player 1 plays on day 0 and has an all-`'-'` day
on day 1; player 2 plays both days. -/
def exDayStats : ℕ → ℕ → List StatEntry := fun d q =>
  if d = 0 then
    (if q = 1 then [StatEntry.val 3, StatEntry.val 1]
     else [StatEntry.val 2, StatEntry.val 0])
  else
    (if q = 1 then [StatEntry.dash, StatEntry.dash]
     else [StatEntry.val 1, StatEntry.val 4])

/-- Witness for C5 on the concrete two-day, two-player instance. -/
theorem weekly_totals_equal_sum_of_daily_stats_witness :
    0 < 2 ∧ (∀ d, d < 2 → 1 ∈ exRosters d) ∧
    (rosterTotals exRosters exDayStats 2 2).find? (pidEq 1) =
      some ⟨1, weeklyPlayerSum exDayStats 1 2 2, false, false⟩ :=
  ⟨by decide, by decide,
   weekly_totals_equal_sum_of_daily_stats exRosters exDayStats 2 2 1 (by decide) (by decide)⟩

end YahooFantasy
